import Mathlib

/-!
# Verification of the encrypted datastore of `2fat` (`config.go`)

A shallow embedding of `config.go`: the vault-path derivation of `init`, the
key derivation `deriveKey`, and the three operations `readDb`, `saveDb` and
`initPassword`.

Modelling conventions.

* A Go `[]byte` and a Go `string` that is inspected byte by byte (the program
  name, the paths) are lists of bytes; `nil` and the empty slice are both `[]`.
* The payload strings of an entry and the names of the entries are never
  inspected by `config.go`; they are Lean strings.
* A Go map is `none` when it is `nil`, else `some` of a finite map with unique
  keys in no order.
* The operating system is an explicit `World`: the vault file, the random
  source, standard input (file descriptor 0, which is either a terminal or a
  piped stream), and the trace of what was printed and read.  Every function
  that touches it takes a world and returns the next one.
* The libraries `argon2`, `aes`, `cipher` and `gob` are not part of the
  repository: they are the fields of a `Lib`, functions about which a theorem
  assumes only what it states.
* Each `errors.New` call site is one constructor of `GoError`; the package
  variable `errWrongPassword` is a constructor of its own.
-/

namespace TwoFat

/-! ## Data model -/

abbrev Byte := Fin 256

abbrev Bytes := List Byte

/-- Constant `aesKeySize` (line 24). -/
def aesKeySize : Nat := 32

/-- Constant `nonceSize` (line 25). -/
def nonceSize : Nat := 12

/-- Constant `pwRetry` (line 26). -/
def pwRetry : Nat := 3

/-- The byte `'/'`. -/
def slash : Byte := 47

/-- The string `"."`. -/
def strDot : Bytes := [46]

/-- The string `".enc"`. -/
def strEnc : Bytes := [46, 101, 110, 99]

/-- Type `entry` (lines 43-47). -/
structure entry where
  Secret : String
  Digits : String
  Algorithm : String
  deriving DecidableEq, Repr

/-- Type `oldentry` (lines 49-52). -/
structure oldentry where
  Secret : String
  Digits : Int
  deriving DecidableEq, Repr

/-- A Go `map[string]V`: `none` is the `nil` map. -/
abbrev GoMap (V : Type) := Option (Finmap (fun _ : String => V))

/-- Type `dbase` (lines 54-58). -/
structure dbase where
  Pwd : Bytes
  Entries : GoMap entry
  OldEntries : GoMap oldentry

/-- The zero value `dbase{}`. -/
def dbase.zero : dbase := ⟨[], none, none⟩

/-- The error values of `config.go`: the package variable `errWrongPassword`
(line 40) and one constructor for each `errors.New` call site. -/
inductive GoError where
  /-- The variable `errWrongPassword`, `errors.New("password error")`. -/
  | errWrongPassword
  /-- Line 88, `errors.New("insufficient data in " + dbPath)`. -/
  | insufficientData (dbPath : Bytes)
  /-- Line 129, `errors.New("invalid entries data")`. -/
  | invalidEntries
  /-- Line 149, `errors.New("could not get randomized data")`. -/
  | randomizedData
  /-- Line 167, `errors.New("problem encoding data")`. -/
  | encodingData
  /-- Line 174, `errors.New("datafile write error")`. -/
  | writeError
  deriving DecidableEq, Repr

/-- What the program does to the outside, in order: every write to standard
error (one constructor for each call site), every read of standard input and
of the terminal, and the creation of the vault directory. -/
inductive Event where
  /-- Lines 94 and 182: the line `Datafile: ` followed by `dbPath`. -/
  | datafile (dbPath : Bytes)
  /-- Line 97: `io.ReadAll(os.Stdin)`. -/
  | readStdin
  /-- Line 100: the prompt `Enter datafile password: `. -/
  | enterPassword
  /-- Lines 101, 185 and 190: one call of `term.ReadPassword(0)`. -/
  | termRead
  /-- Line 102: the empty line. -/
  | newline
  /-- Line 126: the notice that the datafile has the old format. -/
  | legacyNotice
  /-- Line 136: `os.MkdirAll(path.Dir(dbPath), 0700)`. -/
  | mkdirAll (dbPath : Bytes)
  /-- Line 137: the line `Initializing datafile`. -/
  | initializing
  /-- Line 184: the prompt `New datafile password: `. -/
  | newPassword
  /-- Line 187: the message `Password can't be empty`. -/
  | cantBeEmpty
  /-- Line 189: the prompt `Confirm datafile password: `. -/
  | confirmPassword
  /-- Lines 191 and 203: the line that resets the colour. -/
  | defLine
  /-- Line 197: the message `Passwords not the same`. -/
  | notSame
  /-- Line 201: the text `, retry`. -/
  | retry
  deriving DecidableEq, Repr

/-- Standard input, file descriptor 0: `term.IsTerminal(0)`,
`term.ReadPassword(0)` and `io.ReadAll(os.Stdin)` all act on it. It is either
a terminal, with what will be typed on it, or a piped stream, with its
content. -/
inductive Stdin where
  /-- A terminal; `typed` are the lines typed at the coming password reads. -/
  | terminal (typed : List Bytes)
  /-- Not a terminal; `stream` are the bytes of the piped stream. -/
  | piped (stream : Bytes)

/-- The state of the outside world that `config.go` reads and writes. -/
structure World where
  /-- Content of the file at `dbPath`; `none` when `os.Stat(dbPath)` fails. -/
  vault : Option Bytes
  /-- Whether `ioutil.ReadFile(dbPath)` succeeds on the existing file. -/
  readOk : Bool
  /-- Whether `ioutil.WriteFile(dbPath, ..)` succeeds. -/
  writeOk : Bool
  /-- The bytes that `rand.Reader` can still deliver. -/
  rand : Bytes
  /-- Standard input. -/
  input : Stdin
  /-- What has happened so far, oldest first. -/
  trace : List Event

/-- Append one event to the trace. -/
def World.emit (w : World) (e : Event) : World :=
  { w with trace := w.trace ++ [e] }

/-- The value of `term.IsTerminal(0)`. -/
def World.stdinTerminal (w : World) : Bool :=
  match w.input with
  | .terminal _ => true
  | .piped _ => false

/-- The bytes that `io.ReadAll(os.Stdin)` returns: the piped stream. -/
def World.stdin (w : World) : Bytes :=
  match w.input with
  | .terminal _ => []
  | .piped stream => stream

/-- The results of the coming calls of `term.ReadPassword(0)`, in order: what
is typed on the terminal, and nothing when standard input is not a terminal
(the call then fails and returns no bytes). -/
def World.termInput (w : World) : List Bytes :=
  match w.input with
  | .terminal typed => typed
  | .piped _ => []

/-- The call `term.ReadPassword(0)` with its error dropped (`pwd, _ :=`): on a
terminal the next line typed, or no bytes when there is none; no bytes when
standard input is not a terminal. -/
def World.readPassword (w : World) : Bytes × World :=
  match w.input with
  | .terminal [] => ([], w.emit .termRead)
  | .terminal (p :: rest) =>
    (p, { w with input := .terminal rest, trace := w.trace ++ [.termRead] })
  | .piped _ => ([], w.emit .termRead)

/-- The call `io.ReadAll(os.Stdin)` with its error dropped: the whole piped
stream, which is empty afterwards. `readDb` calls it only when standard input
is not a terminal. -/
def World.readAllStdin (w : World) : Bytes × World :=
  match w.input with
  | .piped stream => (stream, { w with input := .piped [], trace := w.trace ++ [.readStdin] })
  | .terminal _ => ([], w.emit .readStdin)

/-- The call `io.ReadFull(rand.Reader, nonce)` for a buffer of `n` bytes: it
fails when the source cannot fill the buffer. -/
def World.readFullRand (w : World) (n : Nat) : Option Bytes × World :=
  if w.rand.length < n then (none, { w with rand := [] })
  else (some (w.rand.take n), { w with rand := w.rand.drop n })

/-- The libraries used by `config.go`. `Block` is `cipher.Block`, `AEAD` is
`cipher.AEAD`; an `Option` result is `none` when the Go call returns an
error. -/
structure Lib (Block AEAD : Type) where
  /-- The function `argon2.IDKey(password, salt, time, memory, threads, keyLen)`. -/
  idKey : Bytes → Bytes → Nat → Nat → Nat → Nat → Bytes
  /-- The function `aes.NewCipher(key)`. -/
  newCipher : Bytes → Option Block
  /-- The function `cipher.NewGCM(block)`. -/
  newGCM : Block → Option AEAD
  /-- The method `aesGcm.Seal(nil, nonce, plaintext, nil)`. -/
  gcmSeal : AEAD → Bytes → Bytes → Bytes
  /-- The method `aesGcm.Open(nil, nonce, ciphertext, nil)`. -/
  gcmOpen : AEAD → Bytes → Bytes → Option Bytes
  /-- The call `gob.NewEncoder(&gobBuf).Encode(m)` for a `map[string]entry`: the
  bytes written to `gobBuf`. -/
  gobEncode : GoMap entry → Option Bytes
  /-- The call `gob.NewDecoder(buf).Decode(&m)` into a nil `map[string]entry`. -/
  gobDecode : Bytes → Option (GoMap entry)
  /-- The call `gob.NewDecoder(buf).Decode(&m)` into a nil `map[string]oldentry`. -/
  gobDecodeOld : Bytes → Option (GoMap oldentry)

/-- How a call of `readDb` ends: it returns a database and an error (`none`
is `nil`), or the process exits. -/
inductive Outcome where
  | ret (db : dbase) (err : Option GoError)
  | exit (code : Nat)

/-! ## `init` (lines 60-76) -/

/-- The function `strings.IndexByte(s, c)`: the index of the first `c` in `s`,
or `-1`. -/
def indexByte (s : Bytes) (c : Byte) : Int :=
  match s with
  | [] => -1
  | b :: rest =>
    if b = c then 0
    else
      let i := indexByte rest c
      if i < 0 then -1 else i + 1

/-- The loop of lines 70-74: while `self` contains a `'/'`, drop everything up
to and including the first one. -/
def stripLoop (self : Bytes) : Bytes :=
  let i := indexByte self slash
  if 0 ≤ i then stripLoop (self.drop (i.toNat + 1)) else self
termination_by self.length
decreasing_by
  have h : ∀ s : Bytes, indexByte s slash < s.length := by
    intro s
    induction s with
    | nil => simp [indexByte]
    | cons b rest ih =>
      simp only [indexByte, List.length_cons]
      split
      · push_cast; omega
      · split
        · push_cast; omega
        · push_cast; omega
  have h1 := h self
  simp only [List.length_drop]
  omega

/-- The package variables `self` and `dbPath` (lines 38-39). -/
structure Globals where
  self : Bytes
  dbPath : Bytes

/-- Function `init` (lines 60-76). `current` is the result of `user.Current()`
(the home directory, or `none` for an error), `arg0` is `os.Args[0]`, and
`pathJoin` is `path.Join`. The result `none` is `log.Fatal`. -/
def init (pathJoin : Bytes → Bytes → Bytes) (g : Globals) (current : Option Bytes)
    (arg0 : Bytes) : Option Globals :=
  if g.dbPath ≠ [] then some g
  else
    match current with
    | none => none
    | some homeDir =>
      let self := stripLoop arg0
      some { self := self, dbPath := pathJoin homeDir (strDot ++ self ++ strEnc) }

/-! ## `deriveKey` (lines 78-80) -/

/-- Function `deriveKey` (lines 78-80). -/
def deriveKey {Block AEAD : Type} (L : Lib Block AEAD) (password salt : Bytes)
    (hashLen : Nat) : Bytes :=
  L.idKey password salt 3 65536 4 hashLen

/-! ## `saveDb` (lines 144-178) -/

/-- Function `saveDb` (lines 144-178): the next world and the returned error
(`none` is `nil`). -/
def saveDb {Block AEAD : Type} (L : Lib Block AEAD) (w : World) (db : dbase) :
    World × Option GoError :=
  match w.readFullRand nonceSize with
  | (none, w) => (w, some .randomizedData)
  | (some nonce, w) =>
    let key := deriveKey L db.Pwd nonce aesKeySize
    match L.newCipher key with
    | none => (w, some .errWrongPassword)
    | some block =>
      match L.newGCM block with
      | none => (w, some .errWrongPassword)
      | some aesGcm =>
        match L.gobEncode db.Entries with
        | none => (w, some .encodingData)
        | some gobBuf =>
          let encryptedData := L.gcmSeal aesGcm nonce gobBuf
          let buf := nonce ++ encryptedData
          if w.writeOk then ({ w with vault := some buf }, none)
          else (w, some .writeError)

/-! ## `initPassword` (lines 180-206) -/

/-- Lines 199-203, the end of a failed attempt: `retryTimes--`, then `, retry`
when attempts remain, then the line that resets the colour. `n` is the value
of `retryTimes` after the decrement. -/
def endAttempt (n : Nat) (w : World) : World :=
  let w := if 0 < n then w.emit .retry else w
  w.emit .defLine

/-- The loop of lines 183-204, by recursion on `retryTimes`; after the loop,
line 205 returns `errWrongPassword`. -/
def initPasswordLoop : Nat → World → dbase → World × dbase × Option GoError
  | 0, w, db => (w, db, some .errWrongPassword)
  | n + 1, w, db =>
    let w := w.emit .newPassword
    let (pwd, w) := w.readPassword
    if pwd.length = 0 then
      let w := w.emit .cantBeEmpty
      initPasswordLoop n (endAttempt n w) db
    else
      let w := w.emit .confirmPassword
      let (pwdc, w) := w.readPassword
      let w := w.emit .defLine
      if pwd = pwdc then (w, { db with Pwd := pwd }, none)
      else
        let w := w.emit .notSame
        initPasswordLoop n (endAttempt n w) db

/-- Function `initPassword` (lines 180-206): the next world, the database
behind the pointer `db`, and the returned error. -/
def initPassword (dbPath : Bytes) (w : World) (db : dbase) :
    World × dbase × Option GoError :=
  initPasswordLoop pwRetry (w.emit (.datafile dbPath)) db

/-! ## `readDb` (lines 82-142) -/

/-- Lines 96-103 of `readDb`: the password is the piped stream when standard
input is not a terminal; when no password has been obtained that way, it is
asked for on the terminal. -/
def acquirePwd (w : World) : Bytes × World :=
  let (pwd, w) := if !w.stdinTerminal then w.readAllStdin else (([] : Bytes), w)
  if pwd.length = 0 then
    let w := w.emit .enterPassword
    let (pwd, w) := w.readPassword
    (pwd, w.emit .newline)
  else (pwd, w)

/-- Lines 120-132 of `readDb`: decode the plaintext under the current schema,
and under the schema of `oldentry` when that fails. -/
def decodeDb {Block AEAD : Type} (L : Lib Block AEAD) (w : World) (pwd : Bytes)
    (decryptedData : Bytes) : World × Outcome :=
  match L.gobDecode decryptedData with
  | some entries => (w, .ret { Pwd := pwd, Entries := entries, OldEntries := none } none)
  | none =>
    match L.gobDecodeOld decryptedData with
    | some _ => (w.emit .legacyNotice, .exit 1)
    | none => (w, .ret dbase.zero (some .invalidEntries))

/-- Lines 104-132 of `readDb`: derive the key from the password and the nonce,
decrypt, decode. -/
def decryptDb {Block AEAD : Type} (L : Lib Block AEAD) (w : World) (pwd nonce encdata : Bytes) :
    World × Outcome :=
  let key := deriveKey L pwd nonce aesKeySize
  match L.newCipher key with
  | none => (w, .ret dbase.zero (some .errWrongPassword))
  | some block =>
    match L.newGCM block with
    | none => (w, .ret dbase.zero (some .errWrongPassword))
    | some aesGcm =>
      match L.gcmOpen aesGcm nonce encdata with
      | none => (w, .ret dbase.zero (some .errWrongPassword))
      | some decryptedData => decodeDb L w pwd decryptedData

/-- Lines 93-95 of `readDb`: the name of the datafile is printed unless
`redirected` is set. -/
def printDatafile (dbPath : Bytes) (redirected : Bool) (w : World) : World :=
  if !redirected then w.emit (.datafile dbPath) else w

/-- Lines 91-132 of `readDb`, the file being read and long enough: split it,
print the name of the datafile, get the password, decrypt and decode. -/
def unlockDb {Block AEAD : Type} (L : Lib Block AEAD) (dbPath : Bytes) (redirected : Bool)
    (w : World) (dbdata : Bytes) : World × Outcome :=
  let nonce := dbdata.take nonceSize
  let encdata := dbdata.drop nonceSize
  let w := printDatafile dbPath redirected w
  let (pwd, w) := acquirePwd w
  decryptDb L w pwd nonce encdata

/-- Lines 135-141 of `readDb`, the datafile being absent: the results of
`initPassword` and of `saveDb` are not looked at. -/
def createDb {Block AEAD : Type} (L : Lib Block AEAD) (dbPath : Bytes) (w : World) :
    World × Outcome :=
  let db := dbase.zero
  let w := w.emit (.mkdirAll dbPath)
  let w := w.emit .initializing
  let (w, db, _) := initPassword dbPath w db
  let db := { db with Entries := some ∅ }
  let (w, _) := saveDb L w db
  (w, .ret db none)

/-- Function `readDb` (lines 82-142). -/
def readDb {Block AEAD : Type} (L : Lib Block AEAD) (dbPath : Bytes) (redirected : Bool)
    (w : World) : World × Outcome :=
  match w.vault with
  | some dbdata =>
    if !w.readOk || dbdata.length < nonceSize + 1 then
      (w, .ret dbase.zero (some (.insufficientData dbPath)))
    else unlockDb L dbPath redirected w dbdata
  | none => createDb L dbPath w

/-! ## Definitions that follow the specification -/

/-- The part of `a` after its last `'/'`, all of `a` when it contains none:
the longest suffix of `a` without a `'/'`. -/
def afterLastSlash (a : Bytes) : Bytes :=
  (a.reverse.takeWhile (fun b => decide (b ≠ slash))).reverse

/-- The attempts that a sequence of terminal inputs makes up, at most `k` of
them: an attempt is a password and, only when that password is not empty, a
confirmation. An input that is missing reads as empty. -/
def parseAttempts : Nat → List Bytes → List (Bytes × Option Bytes)
  | 0, _ => []
  | k + 1, inputs =>
    if inputs.headD [] = [] then
      (inputs.headD [], none) :: parseAttempts k inputs.tail
    else
      (inputs.headD [], some (inputs.tail.headD [])) :: parseAttempts k inputs.tail.tail

/-- An attempt succeeds when its password is not empty and equals its
confirmation. -/
def attemptConfirmed (a : Bytes × Option Bytes) : Bool :=
  decide (a.1 ≠ []) && decide (a.2 = some a.1)

/-- The attempts that are made: those up to and including the first that
succeeds. -/
def attemptsMade (attempts : List (Bytes × Option Bytes)) : List (Bytes × Option Bytes) :=
  attempts.take (attempts.findIdx attemptConfirmed + 1)

/-- Whether a call ended by returning the error of line 88. -/
def Outcome.isInsufficientData : Outcome → Bool
  | .ret _ (some (.insufficientData _)) => true
  | _ => false

/-- Library fact taken as given: `Seal` of AES-GCM returns the plaintext length
plus the 16 bytes of the tag. -/
def Lib.SealOverhead {Block AEAD : Type} (L : Lib Block AEAD) : Prop :=
  ∀ a nonce p, (L.gcmSeal a nonce p).length = p.length + 16

/-- Library fact taken as given: `Open` inverts `Seal` under the same key and
nonce. -/
def Lib.OpenInvertsSeal {Block AEAD : Type} (L : Lib Block AEAD) : Prop :=
  ∀ a nonce p, L.gcmOpen a nonce (L.gcmSeal a nonce p) = some p

/-! ## A small instance of the libraries, to run the embedding

The theorems hold for every `Lib`. To evaluate `readDb` and `saveDb` on
concrete worlds a `Lib` is needed that computes: `demoLib` keeps the interfaces
and the size rules of the real libraries and none of their cryptography. -/

/-- The record mapping of the concrete scenario of the specification. -/
def githubEntries : Finmap (fun _ : String => entry) :=
  Finmap.singleton "github" ⟨"JBSWY3DPEHPK3PXP", "6", "SHA1"⟩

/-- The 16 bytes that `demoLib` appends as a tag. -/
def demoTag (key nonce : Bytes) : Bytes :=
  List.replicate 16 (key.headD 0 + nonce.headD 0)

/-- An executable stand-in for `argon2`, `aes`, `cipher` and `gob`. The key is
`keyLen` copies of the sum of the password and salt bytes; `NewCipher` accepts
keys of 16, 24 or 32 bytes; `Seal` appends a tag made from key and nonce and
`Open` checks and removes it; `gob` knows three streams: `[0]` is the empty
map (which is also how the nil map is encoded), `[1]` is `githubEntries`, and
`[2]` is an empty map of the old schema. -/
def demoLib : Lib Bytes Bytes where
  idKey := fun password salt _ _ _ keyLen => List.replicate keyLen (password.sum + salt.sum)
  newCipher := fun key =>
    if key.length = 16 ∨ key.length = 24 ∨ key.length = 32 then some key else none
  newGCM := fun block => some block
  gcmSeal := fun key nonce p => p ++ demoTag key nonce
  gcmOpen := fun key nonce c =>
    if 16 ≤ c.length ∧ c.drop (c.length - 16) = demoTag key nonce then
      some (c.take (c.length - 16))
    else none
  gobEncode := fun m =>
    if m = none ∨ m = some ∅ then some [0]
    else if m = some githubEntries then some [1]
    else none
  gobDecode := fun b =>
    if b = [0] then some (some ∅)
    else if b = [1] then some (some githubEntries)
    else none
  gobDecodeOld := fun b => if b = [2] then some (some ∅) else none

/-- The password `correcthorse`. -/
def pwCorrect : Bytes := [99, 111, 114, 114, 101, 99, 116, 104, 111, 114, 115, 101]

/-- The password `wrong`. -/
def pwWrong : Bytes := [119, 114, 111, 110, 103]

/-- The path `/h/.2fat.enc`. -/
def demoPath : Bytes := [47, 104, 47, 46, 50, 102, 97, 116, 46, 101, 110, 99]

/-- A world without a vault file, with twelve bytes in the random source and an
interactive terminal on which nothing is typed yet. -/
def freshWorld : World where
  vault := none
  readOk := true
  writeOk := true
  rand := [1, 2, 3, 4, 5, 6, 7, 8, 9, 10, 11, 12]
  input := .terminal []
  trace := []

/-- The world `freshWorld` where three attempts at a new password are typed
and all fail: an empty password, a password with a different confirmation, and
an empty password. -/
def exhaustedWorld : World :=
  { freshWorld with input := .terminal [[], [1], [2], []] }

/-- The world `freshWorld` where a new password is typed and confirmed and the
random source delivers nothing. -/
def noRandomWorld : World :=
  { freshWorld with rand := [], input := .terminal [pwCorrect, pwCorrect] }

/-- The world `freshWorld` where a new password is typed and confirmed and the
datafile cannot be written. -/
def noWriteWorld : World :=
  { freshWorld with writeOk := false, input := .terminal [pwCorrect, pwCorrect] }

/-- The database of the concrete scenario of the specification. -/
def githubDb : dbase := ⟨pwCorrect, some githubEntries, none⟩

/-- The file that `saveDb` writes for `githubDb` in `freshWorld` with
`demoLib`: the nonce, the stream `[1]` and the tag. -/
def githubFile : Bytes :=
  [1, 2, 3, 4, 5, 6, 7, 8, 9, 10, 11, 12, 1,
    98, 98, 98, 98, 98, 98, 98, 98, 98, 98, 98, 98, 98, 98, 98, 98]

/-- A file sealed like `githubFile` whose plaintext is the stream `[2]` of the
old schema. -/
def legacyFile : Bytes :=
  [1, 2, 3, 4, 5, 6, 7, 8, 9, 10, 11, 12, 2,
    98, 98, 98, 98, 98, 98, 98, 98, 98, 98, 98, 98, 98, 98, 98, 98]

/-- A world with the datafile `file` and an interactive terminal on which
`typed` is typed. -/
def terminalWorld (file : Bytes) (typed : List Bytes) : World :=
  { freshWorld with vault := some file, input := .terminal typed }

/-- A world with the datafile `file` and standard input piped, holding
`piped`. -/
def pipedWorld (file piped : Bytes) : World :=
  { freshWorld with vault := some file, input := .piped piped }


/-! ## Theorems about `init` -/

theorem indexByte_lt (s : Bytes) (c : Byte) : indexByte s c < s.length := by
  induction s with
  | nil => simp [indexByte]
  | cons b rest ih =>
    simp only [indexByte, List.length_cons]
    split
    · push_cast; omega
    · split
      · push_cast; omega
      · push_cast; omega

theorem indexByte_ge (s : Bytes) (c : Byte) : -1 ≤ indexByte s c := by
  induction s with
  | nil => simp [indexByte]
  | cons b rest ih =>
    simp only [indexByte]
    split
    · omega
    · split <;> omega

theorem indexByte_neg_iff (s : Bytes) (c : Byte) : indexByte s c < 0 ↔ c ∉ s := by
  induction s with
  | nil => simp [indexByte]
  | cons b rest ih =>
    have hge := indexByte_ge rest c
    simp only [indexByte, List.mem_cons, not_or]
    by_cases hb : b = c
    · simp [hb]
    · have hb2 : ¬ c = b := fun h => hb h.symm
      simp only [hb, if_false, hb2, not_false_eq_true, true_and]
      rw [← ih]
      split <;> omega

theorem indexByte_split (s : Bytes) (c : Byte) (h : 0 ≤ indexByte s c) :
    ∃ pre, s = pre ++ c :: s.drop ((indexByte s c).toNat + 1) := by
  induction s with
  | nil => simp [indexByte] at h
  | cons b rest ih =>
    by_cases hb : b = c
    · refine ⟨[], ?_⟩
      simp [indexByte, hb]
    · simp only [indexByte, hb, if_false] at h ⊢
      by_cases hr : indexByte rest c < 0
      · simp [hr] at h
      · simp only [hr, if_false] at h ⊢
        obtain ⟨pre, hpre⟩ := ih (by omega)
        refine ⟨b :: pre, ?_⟩
        have e : (indexByte rest c + 1).toNat + 1 = ((indexByte rest c).toNat + 1) + 1 := by
          omega
        rw [e, List.drop_succ_cons, List.cons_append, ← hpre]

theorem stripLoop_of_found (a : Bytes) (h : 0 ≤ indexByte a slash) :
    stripLoop a = stripLoop (a.drop ((indexByte a slash).toNat + 1)) := by
  rw [stripLoop]
  simp only [h, if_true]

theorem stripLoop_of_absent (a : Bytes) (h : ¬ 0 ≤ indexByte a slash) : stripLoop a = a := by
  rw [stripLoop]
  simp only [h, if_false]

theorem stripLoop_spec (a : Bytes) :
    slash ∉ stripLoop a ∧
      ((slash ∉ a ∧ stripLoop a = a) ∨ ∃ pre, a = pre ++ slash :: stripLoop a) := by
  suffices H : ∀ n (a : Bytes), a.length = n → slash ∉ stripLoop a ∧
      ((slash ∉ a ∧ stripLoop a = a) ∨ ∃ pre, a = pre ++ slash :: stripLoop a) from H _ a rfl
  intro n
  induction n using Nat.strong_induction_on with
  | _ n ih =>
    intro a hn
    by_cases h : 0 ≤ indexByte a slash
    · rw [stripLoop_of_found a h]
      have hlt := indexByte_lt a slash
      obtain ⟨pre, hpre⟩ := indexByte_split a slash h
      have hlen : (a.drop ((indexByte a slash).toNat + 1)).length < n := by
        simp only [List.length_drop]; omega
      obtain ⟨h1, h2⟩ := ih _ hlen _ rfl
      refine ⟨h1, Or.inr ?_⟩
      rcases h2 with ⟨_, h3⟩ | ⟨pre2, h3⟩
      · exact ⟨pre, by rw [h3]; exact hpre⟩
      · refine ⟨pre ++ slash :: pre2, ?_⟩
        rw [List.append_assoc, List.cons_append, ← h3]
        exact hpre
    · rw [stripLoop_of_absent a h]
      have hno : slash ∉ a := (indexByte_neg_iff a slash).1 (by omega)
      exact ⟨hno, Or.inl ⟨hno, rfl⟩⟩

theorem takeWhile_append_stop {α : Type} (p : α → Bool) (l r : List α) (x : α)
    (hl : ∀ b ∈ l, p b = true) (hx : p x = false) : (l ++ x :: r).takeWhile p = l := by
  induction l with
  | nil => simp [List.takeWhile, hx]
  | cons b l ih =>
    have hb : p b = true := hl b (List.mem_cons_self _ _)
    rw [List.cons_append, List.takeWhile_cons, hb]
    simp only [if_true]
    rw [ih (fun c hc => hl c (List.mem_cons_of_mem _ hc))]

theorem afterLastSlash_of_absent (a : Bytes) (h : slash ∉ a) : afterLastSlash a = a := by
  unfold afterLastSlash
  have : a.reverse.takeWhile (fun b => decide (b ≠ slash)) = a.reverse := by
    rw [List.takeWhile_eq_self_iff]
    intro b hb
    have hb2 : b ∈ a := List.mem_reverse.1 hb
    simp only [ne_eq, decide_not, Bool.not_eq_true', decide_eq_false_iff_not]
    intro e
    exact h (e ▸ hb2)
  rw [this, List.reverse_reverse]

theorem afterLastSlash_of_split (pre suf : Bytes) (h : slash ∉ suf) :
    afterLastSlash (pre ++ slash :: suf) = suf := by
  unfold afterLastSlash
  rw [List.reverse_append, List.reverse_cons, List.append_assoc, List.singleton_append]
  rw [takeWhile_append_stop _ _ _ _ _ (by simp), List.reverse_reverse]
  intro b hb
  have hb2 : b ∈ suf := List.mem_reverse.1 hb
  simp only [ne_eq, decide_not, Bool.not_eq_true', decide_eq_false_iff_not]
  intro e
  exact h (e ▸ hb2)

theorem stripLoop_eq_afterLastSlash (a : Bytes) : stripLoop a = afterLastSlash a := by
  obtain ⟨h1, h2⟩ := stripLoop_spec a
  rcases h2 with ⟨hno, he⟩ | ⟨pre, hpre⟩
  · rw [he, afterLastSlash_of_absent a hno]
  · conv_rhs => rw [hpre]
    rw [afterLastSlash_of_split pre _ h1]

/-- C10. For every program name `a` and home directory `h`, with `dbPath` not
yet set, `init` returns (the loop of lines 70-74 terminates: `stripLoop` is a
total function) with `self` the part of `a` after its last `'/'`: `self` has no
`'/'`, and it is all of `a` when `a` has none, else `a` is some prefix, a `'/'`
and `self`. The vault path is `path.Join` of `h` and the file name
`"." + self + ".enc"`, which starts with a dot, has no `'/'` and is neither
`"."` nor `".."`, so it is one path element. -/
theorem init_vault_path (pathJoin : Bytes → Bytes → Bytes) (self0 a h : Bytes) :
    init pathJoin ⟨self0, []⟩ (some h) a
        = some ⟨stripLoop a, pathJoin h (strDot ++ stripLoop a ++ strEnc)⟩ ∧
      stripLoop a = afterLastSlash a ∧
      slash ∉ stripLoop a ∧
      ((slash ∉ a ∧ stripLoop a = a) ∨ ∃ pre, a = pre ++ slash :: stripLoop a) ∧
      slash ∉ strDot ++ stripLoop a ++ strEnc ∧
      (strDot ++ stripLoop a ++ strEnc).head? = some 46 ∧
      5 ≤ (strDot ++ stripLoop a ++ strEnc).length := by
  obtain ⟨h1, h2⟩ := stripLoop_spec a
  refine ⟨by simp [init], stripLoop_eq_afterLastSlash a, h1, h2, ?_, by simp [strDot], ?_⟩
  · simp only [List.mem_append, not_or]
    exact ⟨⟨by decide, h1⟩, by decide⟩
  · simp [strDot, strEnc]

/-! ## Theorems about `readDb` on an existing datafile -/

theorem readDb_of_long {Block AEAD : Type} (L : Lib Block AEAD)
    (dbPath : Bytes) (redirected : Bool) (w : World) (dbdata : Bytes)
    (hv : w.vault = some dbdata) (hr : w.readOk = true) (hlen : 13 ≤ dbdata.length) :
    readDb L dbPath redirected w = unlockDb L dbPath redirected w dbdata := by
  have h : ¬ dbdata.length < nonceSize + 1 := by simp only [nonceSize]; omega
  simp [readDb, hv, hr, h]

theorem readDb_of_short {Block AEAD : Type} (L : Lib Block AEAD)
    (dbPath : Bytes) (redirected : Bool) (w : World) (dbdata : Bytes)
    (hv : w.vault = some dbdata) (hlen : dbdata.length ≤ 12) :
    readDb L dbPath redirected w = (w, .ret dbase.zero (some (.insufficientData dbPath))) := by
  have h : dbdata.length < nonceSize + 1 := by simp only [nonceSize]; omega
  simp [readDb, hv, h]

theorem decodeDb_not_insufficient {Block AEAD : Type} (L : Lib Block AEAD)
    (w : World) (pwd p : Bytes) :
    (decodeDb L w pwd p).2.isInsufficientData = false := by
  unfold decodeDb
  split
  · rfl
  · split <;> rfl

theorem decryptDb_not_insufficient {Block AEAD : Type} (L : Lib Block AEAD)
    (w : World) (pwd nonce encdata : Bytes) :
    (decryptDb L w pwd nonce encdata).2.isInsufficientData = false := by
  unfold decryptDb
  simp only
  split
  · rfl
  · split
    · rfl
    · split
      · rfl
      · exact decodeDb_not_insufficient L _ _ _

theorem unlockDb_not_insufficient {Block AEAD : Type} (L : Lib Block AEAD)
    (dbPath : Bytes) (redirected : Bool) (w : World)
    (dbdata : Bytes) : (unlockDb L dbPath redirected w dbdata).2.isInsufficientData = false := by
  unfold unlockDb
  exact decryptDb_not_insufficient L _ _ _ _

/-- C5. For an existing datafile that `ioutil.ReadFile` reads, `readDb` returns
the error of line 88 (with the zero database, and nothing printed or read) if
and only if the file holds 12 bytes or fewer. A file of 13 bytes or more is
split into a nonce of exactly 12 bytes and a non-empty ciphertext, which are
what the rest of `readDb` works on, and the call does not end in that error. -/
theorem readDb_insufficient_iff {Block AEAD : Type} (L : Lib Block AEAD)
    (dbPath : Bytes) (redirected : Bool) (w : World)
    (dbdata : Bytes) (hv : w.vault = some dbdata) (hr : w.readOk = true) :
    ((readDb L dbPath redirected w).2.isInsufficientData = true ↔ dbdata.length ≤ 12) ∧
      (dbdata.length ≤ 12 →
        readDb L dbPath redirected w
          = (w, .ret dbase.zero (some (.insufficientData dbPath)))) ∧
      (13 ≤ dbdata.length →
        (dbdata.take nonceSize).length = 12 ∧ dbdata.drop nonceSize ≠ [] ∧
        dbdata = dbdata.take nonceSize ++ dbdata.drop nonceSize ∧
        readDb L dbPath redirected w
          = decryptDb L (acquirePwd (printDatafile dbPath redirected w)).2
              (acquirePwd (printDatafile dbPath redirected w)).1
              (dbdata.take nonceSize) (dbdata.drop nonceSize) ∧
        (readDb L dbPath redirected w).2.isInsufficientData = false) := by
  refine ⟨?_, fun h => readDb_of_short L dbPath redirected w dbdata hv h, ?_⟩
  · constructor
    · intro h
      by_contra hc
      have hlen : 13 ≤ dbdata.length := by omega
      rw [readDb_of_long L dbPath redirected w dbdata hv hr hlen,
        unlockDb_not_insufficient] at h
      exact Bool.false_ne_true h
    · intro h
      rw [readDb_of_short L dbPath redirected w dbdata hv h]
      rfl
  · intro hlen
    refine ⟨?_, ?_, (List.take_append_drop _ _).symm, ?_, ?_⟩
    · simp only [nonceSize, List.length_take]; omega
    · intro h
      have := congrArg List.length h
      simp only [nonceSize, List.length_drop, List.length_nil] at this
      omega
    · rw [readDb_of_long L dbPath redirected w dbdata hv hr hlen]
      rfl
    · rw [readDb_of_long L dbPath redirected w dbdata hv hr hlen]
      exact unlockDb_not_insufficient L _ _ _ _

/-- C2. For an existing datafile of at least 13 bytes that is read, and
whatever password is obtained: when `aes.NewCipher` fails, or `cipher.NewGCM`
fails, or `Open` fails, `readDb` returns the zero database `dbase{}` together
with the one value `errWrongPassword`. The returned pair and the world left
behind are the same in the three cases. -/
theorem readDb_wrong_password {Block AEAD : Type} (L : Lib Block AEAD)
    (dbPath : Bytes) (redirected : Bool) (w : World)
    (dbdata : Bytes) (hv : w.vault = some dbdata) (hr : w.readOk = true)
    (hlen : 13 ≤ dbdata.length)
    (hfail :
      L.newCipher (deriveKey L (acquirePwd (printDatafile dbPath redirected w)).1
          (dbdata.take nonceSize) aesKeySize) = none ∨
      (∃ block,
        L.newCipher (deriveKey L (acquirePwd (printDatafile dbPath redirected w)).1
          (dbdata.take nonceSize) aesKeySize) = some block ∧
        L.newGCM block = none) ∨
      (∃ block aesGcm,
        L.newCipher (deriveKey L (acquirePwd (printDatafile dbPath redirected w)).1
          (dbdata.take nonceSize) aesKeySize) = some block ∧
        L.newGCM block = some aesGcm ∧
        L.gcmOpen aesGcm (dbdata.take nonceSize) (dbdata.drop nonceSize) = none)) :
    readDb L dbPath redirected w
      = ((acquirePwd (printDatafile dbPath redirected w)).2,
          .ret dbase.zero (some .errWrongPassword)) := by
  rw [readDb_of_long L dbPath redirected w dbdata hv hr hlen]
  unfold unlockDb decryptDb
  rcases hfail with h | ⟨b, h1, h2⟩ | ⟨b, a, h1, h2, h3⟩
  · simp only [h]
  · simp only [h1, h2]
  · simp only [h1, h2, h3]

theorem readDb_eq_decodeDb {Block AEAD : Type} (L : Lib Block AEAD)
    (dbPath : Bytes) (redirected : Bool) (w : World) (dbdata : Bytes)
    (block : Block) (aesGcm : AEAD) (p : Bytes)
    (hv : w.vault = some dbdata) (hr : w.readOk = true) (hlen : 13 ≤ dbdata.length)
    (hc : L.newCipher (deriveKey L (acquirePwd (printDatafile dbPath redirected w)).1
        (dbdata.take nonceSize) aesKeySize) = some block)
    (hg : L.newGCM block = some aesGcm)
    (ho : L.gcmOpen aesGcm (dbdata.take nonceSize) (dbdata.drop nonceSize) = some p) :
    readDb L dbPath redirected w
      = decodeDb L (acquirePwd (printDatafile dbPath redirected w)).2
          (acquirePwd (printDatafile dbPath redirected w)).1 p := by
  rw [readDb_of_long L dbPath redirected w dbdata hv hr hlen]
  unfold unlockDb decryptDb
  simp only [hc, hg, ho]

/-- C4. For an existing datafile of at least 13 bytes that is read and
decrypts to `p`: when `p` decodes under the current schema, `readDb` returns
those entries with the password and a nil error; when it does not and `p`
decodes under the schema of `oldentry`, `readDb` prints the notice and exits
with status 1; when it decodes under neither, `readDb` returns the zero
database and the error of line 129. So the exit happens exactly when the
current decode fails and the old one succeeds, a returned database never holds
old entries, and entries returned with a nil error are the result of the
current decode. -/
theorem readDb_two_stage_decode {Block AEAD : Type} (L : Lib Block AEAD)
    (dbPath : Bytes) (redirected : Bool) (w : World) (dbdata : Bytes)
    (block : Block) (aesGcm : AEAD) (p : Bytes)
    (hv : w.vault = some dbdata) (hr : w.readOk = true) (hlen : 13 ≤ dbdata.length)
    (hc : L.newCipher (deriveKey L (acquirePwd (printDatafile dbPath redirected w)).1
        (dbdata.take nonceSize) aesKeySize) = some block)
    (hg : L.newGCM block = some aesGcm)
    (ho : L.gcmOpen aesGcm (dbdata.take nonceSize) (dbdata.drop nonceSize) = some p) :
    (∀ entries, L.gobDecode p = some entries →
        readDb L dbPath redirected w
          = ((acquirePwd (printDatafile dbPath redirected w)).2,
              .ret ⟨(acquirePwd (printDatafile dbPath redirected w)).1, entries, none⟩ none)) ∧
      (L.gobDecode p = none → (L.gobDecodeOld p).isSome = true →
        readDb L dbPath redirected w
          = ((acquirePwd (printDatafile dbPath redirected w)).2.emit .legacyNotice, .exit 1)) ∧
      (L.gobDecode p = none → L.gobDecodeOld p = none →
        readDb L dbPath redirected w
          = ((acquirePwd (printDatafile dbPath redirected w)).2,
              .ret dbase.zero (some .invalidEntries))) ∧
      ((∃ code, (readDb L dbPath redirected w).2 = .exit code) ↔
        (L.gobDecode p = none ∧ (L.gobDecodeOld p).isSome = true)) ∧
      (∀ db err, (readDb L dbPath redirected w).2 = .ret db err → db.OldEntries = none) ∧
      (∀ db, (readDb L dbPath redirected w).2 = .ret db none →
        L.gobDecode p = some db.Entries) := by
  rw [readDb_eq_decodeDb L dbPath redirected w dbdata block aesGcm p hv hr hlen hc hg ho]
  unfold decodeDb
  cases h1 : L.gobDecode p with
  | some entries =>
    refine ⟨?_, ?_, ?_, ?_, ?_, ?_⟩
    · intro e he
      cases he
      rfl
    · intro h; cases h
    · intro h; cases h
    · constructor
      · rintro ⟨code, h⟩; cases h
      · rintro ⟨h, _⟩; cases h
    · intro db err h
      simp only [Outcome.ret.injEq] at h
      rw [← h.1]
    · intro db h
      simp only [Outcome.ret.injEq] at h
      rw [← h.1]
  | none =>
    cases h2 : L.gobDecodeOld p with
    | some old =>
      refine ⟨?_, ?_, ?_, ?_, ?_, ?_⟩
      · intro e he; cases he
      · intro _ _; rfl
      · intro _ h; cases h
      · constructor
        · intro _; exact ⟨rfl, rfl⟩
        · intro _; exact ⟨1, rfl⟩
      · intro db err h; cases h
      · intro db h; cases h
    | none =>
      refine ⟨?_, ?_, ?_, ?_, ?_, ?_⟩
      · intro e he; cases he
      · intro _ h; cases h
      · intro _ _; rfl
      · constructor
        · rintro ⟨code, h⟩; cases h
        · rintro ⟨_, h⟩; cases h
      · intro db err h
        simp only [Outcome.ret.injEq] at h
        rw [← h.1]
        rfl
      · intro db h
        simp only [Outcome.ret.injEq] at h
        have := h.2
        cases this

/-! ## Theorems about `saveDb` -/

theorem saveDb_ok_inv {Block AEAD : Type} (L : Lib Block AEAD) (w : World) (db : dbase)
    (hs : (saveDb L w db).2 = none) :
    nonceSize ≤ w.rand.length ∧ w.writeOk = true ∧
      ∃ block aesGcm gobBuf,
        L.newCipher (deriveKey L db.Pwd (w.rand.take nonceSize) aesKeySize) = some block ∧
        L.newGCM block = some aesGcm ∧
        L.gobEncode db.Entries = some gobBuf ∧
        (saveDb L w db).1
          = { w with
              rand := w.rand.drop nonceSize
              vault := some (w.rand.take nonceSize
                ++ L.gcmSeal aesGcm (w.rand.take nonceSize) gobBuf) } := by
  unfold saveDb World.readFullRand at hs ⊢
  by_cases hrand : w.rand.length < nonceSize
  · simp [hrand] at hs
  · simp only [hrand, if_false] at hs ⊢
    cases hc : L.newCipher (deriveKey L db.Pwd (w.rand.take nonceSize) aesKeySize) with
    | none => simp [hc] at hs
    | some block =>
      simp only [hc] at hs ⊢
      cases hg : L.newGCM block with
      | none => simp [hg] at hs
      | some aesGcm =>
        simp only [hg] at hs ⊢
        cases he : L.gobEncode db.Entries with
        | none => simp [he] at hs
        | some gobBuf =>
          simp only [he] at hs ⊢
          by_cases hw : w.writeOk = true
          · simp only [hw, if_true] at hs ⊢
            exact ⟨by omega, trivial, block, aesGcm, gobBuf, rfl, hg, rfl, rfl⟩
          · simp [hw] at hs

theorem nonce_append_split (nonce c : Bytes) (hn : nonce.length = 12) :
    (nonce ++ c).take 12 = nonce ∧ (nonce ++ c).drop 12 = c := by
  constructor
  · rw [← hn, List.take_left]
  · rw [← hn, List.drop_left]

theorem rand_take_length (w : World) (h : nonceSize ≤ w.rand.length) :
    (w.rand.take nonceSize).length = 12 := by
  simp only [nonceSize, List.length_take] at h ⊢
  omega

/-- C6. When `saveDb` returns nil, the file it wrote is
`nonce ++ Seal(key, nonce, gobEncode(Entries))`, where `nonce` is the 12 bytes
that this call drew from the random source and `key` is made by
`aes.NewCipher` and `cipher.NewGCM` from `deriveKey(Pwd, nonce, 32)`: the one
nonce is the salt of the key derivation and the nonce of `Seal`. Given that
`Seal` returns the plaintext length plus 16 bytes, the file starts with the 12
nonce bytes, is followed by a ciphertext of the plaintext length plus 16, has
at least 13 bytes, and a `readDb` that reads it does not end in the error of
line 88. -/
theorem saveDb_file_layout {Block AEAD : Type} (L : Lib Block AEAD) (w : World) (db : dbase)
    (hs : (saveDb L w db).2 = none) (hseal : L.SealOverhead) :
    ∃ block aesGcm gobBuf file,
      (w.rand.take nonceSize).length = 12 ∧
      (saveDb L w db).1.rand = w.rand.drop nonceSize ∧
      L.newCipher (deriveKey L db.Pwd (w.rand.take nonceSize) aesKeySize) = some block ∧
      L.newGCM block = some aesGcm ∧
      L.gobEncode db.Entries = some gobBuf ∧
      file = w.rand.take nonceSize ++ L.gcmSeal aesGcm (w.rand.take nonceSize) gobBuf ∧
      (saveDb L w db).1.vault = some file ∧
      file.take 12 = w.rand.take nonceSize ∧
      file.drop 12 = L.gcmSeal aesGcm (w.rand.take nonceSize) gobBuf ∧
      (file.drop 12).length = gobBuf.length + 16 ∧
      file.drop 12 ≠ [] ∧
      13 ≤ file.length ∧
      ∀ (dbPath : Bytes) (redirected : Bool) (w2 : World),
        w2.vault = some file → w2.readOk = true →
          (readDb L dbPath redirected w2).2.isInsufficientData = false := by
  obtain ⟨hrand, _, block, aesGcm, gobBuf, hc, hg, he, hw⟩ := saveDb_ok_inv L w db hs
  have hn := rand_take_length w hrand
  have hl := hseal aesGcm (w.rand.take nonceSize) gobBuf
  obtain ⟨htake, hdrop⟩ := nonce_append_split (w.rand.take nonceSize)
    (L.gcmSeal aesGcm (w.rand.take nonceSize) gobBuf) hn
  have hlen : 13 ≤ (w.rand.take nonceSize
      ++ L.gcmSeal aesGcm (w.rand.take nonceSize) gobBuf).length := by
    rw [List.length_append, hn, hl]; omega
  refine ⟨block, aesGcm, gobBuf, _, hn, by rw [hw], hc, hg, he, rfl, by rw [hw], htake, hdrop,
    by rw [hdrop, hl], ?_, hlen, ?_⟩
  · rw [hdrop]
    intro h
    rw [h] at hl
    simp at hl
  · intro dbPath redirected w2 hv hr
    rw [readDb_of_long L dbPath redirected w2 _ hv hr hlen]
    exact unlockDb_not_insufficient L _ _ _ _

/-- C1. Round trip. When `saveDb` returns nil on a database holding the
password `P` and the entries `M`, then `readDb` in any world where the
datafile is the file that `saveDb` wrote, the file can be read, and the
password obtained is `P`, returns a nil error and a database whose `Entries`
are `M` (and whose `Pwd` is `P`). Taken as given about the libraries: `Open`
inverts `Seal`, `Seal` adds the 16 bytes of the tag, and decoding what was
encoded for `M` returns `M`. -/
theorem saveDb_readDb_round_trip {Block AEAD : Type} (L : Lib Block AEAD) (w : World)
    (db : dbase) (dbPath : Bytes) (redirected : Bool) (w2 : World)
    (hs : (saveDb L w db).2 = none)
    (hopen : L.OpenInvertsSeal) (hseal : L.SealOverhead)
    (hgob : ∀ b, L.gobEncode db.Entries = some b → L.gobDecode b = some db.Entries)
    (hv : w2.vault = (saveDb L w db).1.vault) (hr : w2.readOk = true)
    (hp : (acquirePwd (printDatafile dbPath redirected w2)).1 = db.Pwd) :
    readDb L dbPath redirected w2
      = ((acquirePwd (printDatafile dbPath redirected w2)).2,
          .ret ⟨db.Pwd, db.Entries, none⟩ none) := by
  obtain ⟨hrand, _, block, aesGcm, gobBuf, hc, hg, he, hw⟩ := saveDb_ok_inv L w db hs
  have hn := rand_take_length w hrand
  obtain ⟨htake, hdrop⟩ := nonce_append_split (w.rand.take nonceSize)
    (L.gcmSeal aesGcm (w.rand.take nonceSize) gobBuf) hn
  have hlen : 13 ≤ (w.rand.take nonceSize
      ++ L.gcmSeal aesGcm (w.rand.take nonceSize) gobBuf).length := by
    rw [List.length_append, hn, hseal aesGcm (w.rand.take nonceSize) gobBuf]; omega
  rw [hw] at hv
  have htake2 : (w.rand.take nonceSize
      ++ L.gcmSeal aesGcm (w.rand.take nonceSize) gobBuf).take nonceSize
      = w.rand.take nonceSize := htake
  have hdrop2 : (w.rand.take nonceSize
      ++ L.gcmSeal aesGcm (w.rand.take nonceSize) gobBuf).drop nonceSize
      = L.gcmSeal aesGcm (w.rand.take nonceSize) gobBuf := hdrop
  rw [readDb_eq_decodeDb L dbPath redirected w2 _ block aesGcm gobBuf hv hr hlen
    (by rw [hp, htake2]; exact hc) hg
    (by rw [hdrop2, htake2]; exact hopen aesGcm _ gobBuf)]
  unfold decodeDb
  rw [hgob _ he, hp]

/-! ## Theorems about the password of `readDb` -/

theorem acquirePwd_piped (w : World) (stream : Bytes) (hi : w.input = .piped stream) :
    acquirePwd w
      = (stream,
          { w with
            input := .piped []
            trace := w.trace ++ [.readStdin]
              ++ (if stream = [] then [.enterPassword, .termRead, .newline] else []) }) := by
  by_cases hs : stream = []
  · subst hs
    simp [acquirePwd, World.stdinTerminal, World.readAllStdin, World.readPassword, World.emit, hi]
  · have hl : ¬ stream.length = 0 := fun h => hs (List.length_eq_zero.1 h)
    simp [acquirePwd, World.stdinTerminal, World.readAllStdin, hi, hl, hs]

theorem decodeDb_world {Block AEAD : Type} (L : Lib Block AEAD) (w : World) (pwd p : Bytes) :
    (decodeDb L w pwd p).1 = w ∨ (decodeDb L w pwd p).1 = w.emit .legacyNotice := by
  unfold decodeDb
  split
  · exact Or.inl rfl
  · split
    · exact Or.inr rfl
    · exact Or.inl rfl

theorem decryptDb_world {Block AEAD : Type} (L : Lib Block AEAD) (w : World)
    (pwd nonce encdata : Bytes) :
    (decryptDb L w pwd nonce encdata).1 = w ∨
      (decryptDb L w pwd nonce encdata).1 = w.emit .legacyNotice := by
  unfold decryptDb
  simp only
  split
  · exact Or.inl rfl
  · split
    · exact Or.inl rfl
    · split
      · exact Or.inl rfl
      · exact decodeDb_world L _ _ _

theorem printDatafile_trace (dbPath : Bytes) (redirected : Bool) (w : World) :
    printDatafile dbPath redirected w
      = { w with trace := w.trace ++ if redirected then [] else [.datafile dbPath] } := by
  cases redirected <;> simp [printDatafile, World.emit]

/-- C9, as amended. Standard input not being a terminal and the datafile being
read and of at least 13 bytes: for every content of the piped stream, the
empty one included, `readDb` derives the key from exactly the bytes of the
whole stream. When the stream is not empty, what `readDb` adds to the trace
holds no password prompt and no terminal read; when the stream is empty,
`readDb` shows the prompt of line 100 and calls `term.ReadPassword` once,
which delivers no bytes. -/
theorem readDb_piped_password {Block AEAD : Type} (L : Lib Block AEAD)
    (dbPath : Bytes) (redirected : Bool) (w : World) (dbdata : Bytes)
    (hv : w.vault = some dbdata) (hr : w.readOk = true) (hlen : 13 ≤ dbdata.length)
    (ht : w.stdinTerminal = false) :
    readDb L dbPath redirected w
      = decryptDb L
          { w with
            input := .piped []
            trace := w.trace ++ (if redirected then [] else [.datafile dbPath])
              ++ [.readStdin]
              ++ (if w.stdin = [] then [.enterPassword, .termRead, .newline] else []) }
          w.stdin (dbdata.take nonceSize) (dbdata.drop nonceSize) ∧
    ∃ evs, (readDb L dbPath redirected w).1.trace = w.trace ++ evs ∧
      (Event.enterPassword ∈ evs ↔ w.stdin = []) ∧
      (Event.termRead ∈ evs ↔ w.stdin = []) := by
  cases hi : w.input with
  | terminal typed => simp [World.stdinTerminal, hi] at ht
  | piped stream =>
    have hstdin : w.stdin = stream := by simp [World.stdin, hi]
    have hread := readDb_of_long L dbPath redirected w dbdata hv hr hlen
    have hpd := printDatafile_trace dbPath redirected w
    have hacq := acquirePwd_piped (printDatafile dbPath redirected w) stream
      (by rw [hpd]; exact hi)
    have heq : readDb L dbPath redirected w
        = decryptDb L
            { w with
              input := .piped []
              trace := w.trace ++ (if redirected then [] else [.datafile dbPath])
                ++ [.readStdin]
                ++ (if stream = [] then [.enterPassword, .termRead, .newline] else []) }
            stream (dbdata.take nonceSize) (dbdata.drop nonceSize) := by
      rw [hread]
      unfold unlockDb
      simp only [hacq]
      rw [hpd]
    rw [hstdin]
    refine ⟨heq, ?_⟩
    rw [heq]
    rcases decryptDb_world L
        { w with
          input := .piped []
          trace := w.trace ++ (if redirected then [] else [.datafile dbPath])
            ++ [.readStdin]
            ++ (if stream = [] then [.enterPassword, .termRead, .newline] else []) }
        stream (dbdata.take nonceSize) (dbdata.drop nonceSize) with h | h
    · rw [h]
      refine ⟨(if redirected then [] else [.datafile dbPath]) ++ [.readStdin]
        ++ (if stream = [] then [.enterPassword, .termRead, .newline] else []), ?_, ?_, ?_⟩
      · simp
      · by_cases hs : stream = [] <;> cases redirected <;> simp [hs]
      · by_cases hs : stream = [] <;> cases redirected <;> simp [hs]
    · rw [h]
      refine ⟨(if redirected then [] else [.datafile dbPath]) ++ [.readStdin]
        ++ (if stream = [] then [.enterPassword, .termRead, .newline] else [])
        ++ [.legacyNotice], ?_, ?_, ?_⟩
      · simp [World.emit]
      · by_cases hs : stream = [] <;> cases redirected <;> simp [hs]
      · by_cases hs : stream = [] <;> cases redirected <;> simp [hs]

/-! ## Theorems about `initPassword` -/

theorem readPassword_spec (w : World) :
    w.readPassword.1 = w.termInput.headD [] ∧
      w.readPassword.2.termInput = w.termInput.tail ∧
      w.readPassword.2.trace = w.trace ++ [.termRead] := by
  cases hi : w.input with
  | terminal typed =>
    cases typed with
    | nil => simp [World.readPassword, World.termInput, World.emit, hi]
    | cons p rest => simp [World.readPassword, World.termInput, hi]
  | piped stream => simp [World.readPassword, World.termInput, World.emit, hi]

theorem endAttempt_spec (n : Nat) (w : World) :
    (endAttempt n w).termInput = w.termInput ∧
      (endAttempt n w).trace = w.trace ++ ((if 0 < n then [.retry] else []) ++ [.defLine]) := by
  by_cases hn : 0 < n <;> simp [endAttempt, World.emit, World.termInput, hn]

theorem initPasswordLoop_empty (n : Nat) (w : World) (db : dbase)
    (h : w.termInput.headD [] = []) :
    ∃ w2, initPasswordLoop (n + 1) w db = initPasswordLoop n w2 db ∧
      w2.termInput = w.termInput.tail ∧
      w2.trace = w.trace ++ ([.newPassword, .termRead, .cantBeEmpty]
        ++ (if 0 < n then [.retry] else []) ++ [.defLine]) := by
  obtain ⟨h1, h2, h3⟩ := readPassword_spec (w.emit .newPassword)
  obtain ⟨h4, h5⟩ := endAttempt_spec n ((w.emit .newPassword).readPassword.2.emit .cantBeEmpty)
  have hl : (w.emit .newPassword).readPassword.1.length = 0 := by
    rw [h1]
    exact List.length_eq_zero.2 h
  refine ⟨endAttempt n ((w.emit .newPassword).readPassword.2.emit .cantBeEmpty), ?_, ?_, ?_⟩
  · rw [initPasswordLoop]
    simp only [hl, if_true]
  · rw [h4]
    exact h2
  · rw [h5]
    show ((w.emit .newPassword).readPassword.2.trace ++ [.cantBeEmpty]) ++ _ = _
    rw [h3]
    simp [World.emit]

theorem initPasswordLoop_confirmed (n : Nat) (w : World) (db : dbase)
    (h : w.termInput.headD [] ≠ []) (hc : w.termInput.headD [] = w.termInput.tail.headD []) :
    ∃ w2, initPasswordLoop (n + 1) w db = (w2, { db with Pwd := w.termInput.headD [] }, none) ∧
      w2.trace = w.trace
        ++ [.newPassword, .termRead, .confirmPassword, .termRead, .defLine] := by
  obtain ⟨h1, h2, h3⟩ := readPassword_spec (w.emit .newPassword)
  obtain ⟨h4, _, h6⟩ :=
    readPassword_spec ((w.emit .newPassword).readPassword.2.emit .confirmPassword)
  have hl : ¬ (w.emit .newPassword).readPassword.1.length = 0 := by
    rw [h1]
    exact fun e => h (List.length_eq_zero.1 e)
  have hsame : (w.emit .newPassword).readPassword.1
      = ((w.emit .newPassword).readPassword.2.emit .confirmPassword).readPassword.1 := by
    rw [h4, h1]
    show _ = (w.emit .newPassword).readPassword.2.termInput.headD []
    rw [h2]
    exact hc
  refine ⟨((w.emit .newPassword).readPassword.2.emit .confirmPassword).readPassword.2.emit
    .defLine, ?_, ?_⟩
  · rw [initPasswordLoop]
    simp only [hl, if_false]
    rw [if_pos hsame, h1]
    rfl
  · show ((w.emit .newPassword).readPassword.2.emit .confirmPassword).readPassword.2.trace
      ++ [.defLine] = _
    rw [h6]
    show (((w.emit .newPassword).readPassword.2.trace ++ [.confirmPassword]) ++ [.termRead])
      ++ [.defLine] = _
    rw [h3]
    simp [World.emit]

theorem initPasswordLoop_mismatch (n : Nat) (w : World) (db : dbase)
    (h : w.termInput.headD [] ≠ []) (hc : w.termInput.headD [] ≠ w.termInput.tail.headD []) :
    ∃ w2, initPasswordLoop (n + 1) w db = initPasswordLoop n w2 db ∧
      w2.termInput = w.termInput.tail.tail ∧
      w2.trace = w.trace
        ++ ([.newPassword, .termRead, .confirmPassword, .termRead, .defLine, .notSame]
        ++ (if 0 < n then [.retry] else []) ++ [.defLine]) := by
  obtain ⟨h1, h2, h3⟩ := readPassword_spec (w.emit .newPassword)
  obtain ⟨h4, h5, h6⟩ :=
    readPassword_spec ((w.emit .newPassword).readPassword.2.emit .confirmPassword)
  obtain ⟨h7, h8⟩ := endAttempt_spec n
    ((((w.emit .newPassword).readPassword.2.emit .confirmPassword).readPassword.2.emit
      .defLine).emit .notSame)
  have hl : ¬ (w.emit .newPassword).readPassword.1.length = 0 := by
    rw [h1]
    exact fun e => h (List.length_eq_zero.1 e)
  have hdiff : ¬ (w.emit .newPassword).readPassword.1
      = ((w.emit .newPassword).readPassword.2.emit .confirmPassword).readPassword.1 := by
    rw [h4, h1]
    show ¬ _ = (w.emit .newPassword).readPassword.2.termInput.headD []
    rw [h2]
    exact hc
  refine ⟨endAttempt n
    ((((w.emit .newPassword).readPassword.2.emit .confirmPassword).readPassword.2.emit
      .defLine).emit .notSame), ?_, ?_, ?_⟩
  · rw [initPasswordLoop]
    simp only [hl, if_false]
    rw [if_neg hdiff]
  · rw [h7]
    show ((w.emit .newPassword).readPassword.2.emit .confirmPassword).readPassword.2.termInput
      = _
    rw [h5]
    show (w.emit .newPassword).readPassword.2.termInput.tail = _
    rw [h2]
    rfl
  · rw [h8]
    show ((((w.emit .newPassword).readPassword.2.emit .confirmPassword).readPassword.2.trace
      ++ [.defLine]) ++ [.notSame]) ++ _ = _
    rw [h6]
    show (((((w.emit .newPassword).readPassword.2.trace ++ [.confirmPassword]) ++ [.termRead])
      ++ [.defLine]) ++ [.notSame]) ++ _ = _
    rw [h3]
    simp [World.emit]

theorem attemptsMade_cons_of_failed (x : Bytes × Option Bytes)
    (rest : List (Bytes × Option Bytes)) (h : attemptConfirmed x = false) :
    attemptsMade (x :: rest) = x :: attemptsMade rest := by
  simp [attemptsMade, List.findIdx_cons, h]

theorem attemptsMade_cons_of_confirmed (x : Bytes × Option Bytes)
    (rest : List (Bytes × Option Bytes)) (h : attemptConfirmed x = true) :
    attemptsMade (x :: rest) = [x] := by
  simp [attemptsMade, List.findIdx_cons, h]

theorem parseAttempts_length (n : Nat) : ∀ inputs, (parseAttempts n inputs).length = n := by
  induction n with
  | zero => intro inputs; rfl
  | succ n ih =>
    intro inputs
    rw [parseAttempts]
    split <;> simp [ih]

theorem initPasswordLoop_spec (n : Nat) : ∀ (w : World) (db : dbase),
    (∃ evs, (initPasswordLoop n w db).1.trace = w.trace ++ evs ∧
      evs.count .newPassword = (attemptsMade (parseAttempts n w.termInput)).length ∧
      evs.count .confirmPassword
        = ((attemptsMade (parseAttempts n w.termInput)).filter
            (fun a => decide (a.1 ≠ []))).length ∧
      evs.count .termRead
        = (attemptsMade (parseAttempts n w.termInput)).length
          + ((attemptsMade (parseAttempts n w.termInput)).filter
            (fun a => decide (a.1 ≠ []))).length) ∧
    (∀ a, (parseAttempts n w.termInput).find? attemptConfirmed = some a →
      (initPasswordLoop n w db).2.2 = none ∧
      (initPasswordLoop n w db).2.1 = { db with Pwd := a.1 }) ∧
    ((parseAttempts n w.termInput).find? attemptConfirmed = none →
      (initPasswordLoop n w db).2.2 = some .errWrongPassword ∧
      (initPasswordLoop n w db).2.1 = db) := by
  induction n with
  | zero =>
    intro w db
    refine ⟨⟨[], ?_, ?_, ?_, ?_⟩, ?_, ?_⟩
    · simp [initPasswordLoop]
    · simp [parseAttempts, attemptsMade]
    · simp [parseAttempts, attemptsMade]
    · simp [parseAttempts, attemptsMade]
    · intro a h
      simp [parseAttempts] at h
    · intro _
      exact ⟨rfl, rfl⟩
  | succ n ih =>
    intro w db
    by_cases h : w.termInput.headD [] = []
    · have hx : attemptConfirmed (w.termInput.headD [], none) = false := by
        rw [h]; rfl
      have hx2 : ¬ attemptConfirmed (w.termInput.headD [], none) = true := by
        rw [hx]; exact Bool.false_ne_true
      obtain ⟨w2, hstep, hti, htr⟩ := initPasswordLoop_empty n w db h
      rw [hstep, parseAttempts, if_pos h,
        attemptsMade_cons_of_failed _ _ hx, List.find?_cons_of_neg _ hx2]
      obtain ⟨⟨evs, h1, h2, h3, h4⟩, h5, h6⟩ := ih w2 db
      rw [hti] at h2 h3 h4 h5 h6
      rw [htr] at h1
      have hf : ∀ rest : List (Bytes × Option Bytes),
          ((w.termInput.headD [], (none : Option Bytes)) :: rest).filter
            (fun a => decide (a.1 ≠ [])) = rest.filter (fun a => decide (a.1 ≠ [])) := by
        intro rest
        rw [List.filter_cons_of_neg]
        rw [h]; decide
      refine ⟨⟨([.newPassword, .termRead, .cantBeEmpty]
            ++ (if 0 < n then [.retry] else []) ++ [.defLine]) ++ evs, ?_, ?_, ?_, ?_⟩, h5, h6⟩
      · rw [h1, List.append_assoc]
      · rw [List.count_append, h2, List.length_cons]
        by_cases hn : 0 < n <;> simp [hn, List.count_cons] <;> omega
      · rw [List.count_append, h3, hf]
        by_cases hn : 0 < n <;> simp [hn, List.count_cons]
      · rw [List.count_append, h4, hf, List.length_cons]
        by_cases hn : 0 < n <;> simp [hn, List.count_cons] <;> omega
    · have hf : ∀ (c : Option Bytes) (rest : List (Bytes × Option Bytes)),
          ((w.termInput.headD [], c) :: rest).filter (fun a => decide (a.1 ≠ []))
            = (w.termInput.headD [], c) :: rest.filter (fun a => decide (a.1 ≠ [])) := by
        intro c rest
        rw [List.filter_cons_of_pos]
        exact decide_eq_true h
      by_cases hc : w.termInput.headD [] = w.termInput.tail.headD []
      · have hx : attemptConfirmed (w.termInput.headD [], some (w.termInput.tail.headD []))
            = true := by
          rw [← hc]
          unfold attemptConfirmed
          rw [Bool.and_eq_true]
          exact ⟨decide_eq_true h, decide_eq_true rfl⟩
        obtain ⟨w2, hstep, htr⟩ := initPasswordLoop_confirmed n w db h hc
        rw [hstep, parseAttempts, if_neg h,
          attemptsMade_cons_of_confirmed _ _ hx, List.find?_cons_of_pos _ hx]
        refine ⟨⟨[.newPassword, .termRead, .confirmPassword, .termRead, .defLine],
          htr, ?_, ?_, ?_⟩, ?_, ?_⟩
        · simp [List.count_cons]
        · rw [hf]; simp [List.count_cons]
        · rw [hf]; simp [List.count_cons]
        · intro a ha
          cases ha
          exact ⟨rfl, rfl⟩
        · intro ha
          cases ha
      · have hx : attemptConfirmed (w.termInput.headD [], some (w.termInput.tail.headD []))
            = false := by
          have hc2 : ¬ some (w.termInput.tail.headD []) = some (w.termInput.headD []) :=
            fun e => hc (Option.some.inj e).symm
          unfold attemptConfirmed
          rw [Bool.and_eq_false_iff]
          exact Or.inr (decide_eq_false hc2)
        have hx2 : ¬ attemptConfirmed (w.termInput.headD [], some (w.termInput.tail.headD []))
            = true := by
          rw [hx]; exact Bool.false_ne_true
        obtain ⟨w2, hstep, hti, htr⟩ := initPasswordLoop_mismatch n w db h hc
        rw [hstep, parseAttempts, if_neg h,
          attemptsMade_cons_of_failed _ _ hx, List.find?_cons_of_neg _ hx2]
        obtain ⟨⟨evs, h1, h2, h3, h4⟩, h5, h6⟩ := ih w2 db
        rw [hti] at h2 h3 h4 h5 h6
        rw [htr] at h1
        refine ⟨⟨([.newPassword, .termRead, .confirmPassword, .termRead, .defLine, .notSame]
              ++ (if 0 < n then [.retry] else []) ++ [.defLine]) ++ evs, ?_, ?_, ?_, ?_⟩, h5, h6⟩
        · rw [h1, List.append_assoc]
        · rw [List.count_append, h2, List.length_cons]
          by_cases hn : 0 < n <;> simp [hn, List.count_cons] <;> omega
        · rw [List.count_append, h3, hf, List.length_cons]
          by_cases hn : 0 < n <;> simp [hn, List.count_cons] <;> omega
        · rw [List.count_append, h4, hf, List.length_cons, List.length_cons]
          by_cases hn : 0 < n <;> simp [hn, List.count_cons] <;> omega

/-- C7. For every sequence of terminal inputs, read as attempts (a password
and, only when it is not empty, a confirmation): `initPassword` makes the
attempts up to and including the first one whose password is not empty and
equals its confirmation, at most 3. It shows the prompt for a new password
once for each attempt made, the prompt for a confirmation only in the attempts
with a non-empty password, and reads the terminal once for each prompt. It
returns nil if and only if one of the first 3 attempts has a non-empty password
equal to its confirmation, and `db.Pwd` is then the password of the first such
attempt, the rest of `db` unchanged; otherwise it returns `errWrongPassword`
and `db` is unchanged. -/
theorem initPassword_protocol (dbPath : Bytes) (w : World) (db : dbase) :
    (parseAttempts pwRetry w.termInput).length = 3 ∧
    (attemptsMade (parseAttempts pwRetry w.termInput)).length ≤ 3 ∧
    (∃ evs, (initPassword dbPath w db).1.trace = w.trace ++ [.datafile dbPath] ++ evs ∧
      evs.count .newPassword = (attemptsMade (parseAttempts pwRetry w.termInput)).length ∧
      evs.count .confirmPassword
        = ((attemptsMade (parseAttempts pwRetry w.termInput)).filter
            (fun a => decide (a.1 ≠ []))).length ∧
      evs.count .termRead
        = (attemptsMade (parseAttempts pwRetry w.termInput)).length
          + ((attemptsMade (parseAttempts pwRetry w.termInput)).filter
            (fun a => decide (a.1 ≠ []))).length) ∧
    ((initPassword dbPath w db).2.2 = none ↔
      ∃ a ∈ parseAttempts pwRetry w.termInput, a.1 ≠ [] ∧ a.2 = some a.1) ∧
    (∀ a, (parseAttempts pwRetry w.termInput).find? attemptConfirmed = some a →
      (initPassword dbPath w db).2.2 = none ∧
      (initPassword dbPath w db).2.1 = { db with Pwd := a.1 }) ∧
    ((parseAttempts pwRetry w.termInput).find? attemptConfirmed = none →
      (initPassword dbPath w db).2.2 = some .errWrongPassword ∧
      (initPassword dbPath w db).2.1 = db) := by
  obtain ⟨⟨evs, h1, h2, h3, h4⟩, h5, h6⟩ :=
    initPasswordLoop_spec pwRetry (w.emit (.datafile dbPath)) db
  have hlen := parseAttempts_length pwRetry w.termInput
  have hconf : ∀ a : Bytes × Option Bytes,
      attemptConfirmed a = true ↔ (a.1 ≠ [] ∧ a.2 = some a.1) := by
    intro a
    simp [attemptConfirmed]
  refine ⟨hlen, ?_, ⟨evs, h1, h2, h3, h4⟩, ?_, h5, h6⟩
  · unfold attemptsMade
    rw [List.length_take, hlen]
    exact Nat.min_le_right _ _
  · cases hf : (parseAttempts pwRetry w.termInput).find? attemptConfirmed with
    | none =>
      have h7 := (h6 hf).1
      have hall := List.find?_eq_none.1 hf
      constructor
      · intro h
        unfold initPassword at h
        rw [h7] at h
        cases h
      · rintro ⟨a, ha, hc⟩
        exact absurd ((hconf a).2 hc) (hall a ha)
    | some a =>
      constructor
      · intro _
        exact ⟨a, List.mem_of_find?_eq_some hf, (hconf a).1 (List.find?_some hf)⟩
      · intro _
        exact (h5 a hf).1

/-! ## Theorems about `readDb` when the datafile is absent -/

theorem readDb_absent_nil {Block AEAD : Type} (L : Lib Block AEAD) (dbPath : Bytes)
    (redirected : Bool) (w : World) (hv : w.vault = none) :
    ∃ db, (readDb L dbPath redirected w).2 = .ret db none ∧ db.Entries = some ∅ := by
  simp only [readDb, hv, createDb]
  exact ⟨_, rfl, rfl⟩

/-- C3, the code at the failing input. The datafile is absent and the three
attempts at a new password fail: `initPassword` returns `errWrongPassword`,
yet `readDb` returns a nil error with a database whose password is empty, and
a datafile has been written. -/
theorem readDb_after_failed_attempts :
    exhaustedWorld.vault = none ∧
    (parseAttempts pwRetry exhaustedWorld.termInput).find? attemptConfirmed = none ∧
    (initPassword demoPath ((exhaustedWorld.emit (.mkdirAll demoPath)).emit .initializing)
      dbase.zero).2.2 = some .errWrongPassword ∧
    (readDb demoLib demoPath false exhaustedWorld).2 = .ret ⟨[], some ∅, none⟩ none ∧
    (readDb demoLib demoPath false exhaustedWorld).1.vault
      = some [1, 2, 3, 4, 5, 6, 7, 8, 9, 10, 11, 12, 0,
          79, 79, 79, 79, 79, 79, 79, 79, 79, 79, 79, 79, 79, 79, 79, 79] := by
  refine ⟨rfl, by decide, rfl, rfl, by decide⟩

/-- C8, the code at the failing input. The datafile is absent and a new
password is typed and confirmed. When the random source fails, `saveDb` returns
the error of line 149; when the file cannot be written, it returns the error
of line 174; in both cases `readDb` returns a database with a nil error, and
no datafile exists. -/
theorem readDb_after_failed_save :
    (saveDb demoLib
      (initPassword demoPath ((noRandomWorld.emit (.mkdirAll demoPath)).emit .initializing)
        dbase.zero).1 ⟨pwCorrect, some ∅, none⟩).2 = some .randomizedData ∧
    (readDb demoLib demoPath false noRandomWorld).2 = .ret ⟨pwCorrect, some ∅, none⟩ none ∧
    (readDb demoLib demoPath false noRandomWorld).1.vault = none ∧
    (saveDb demoLib
      (initPassword demoPath ((noWriteWorld.emit (.mkdirAll demoPath)).emit .initializing)
        dbase.zero).1 ⟨pwCorrect, some ∅, none⟩).2 = some .writeError ∧
    (readDb demoLib demoPath false noWriteWorld).2 = .ret ⟨pwCorrect, some ∅, none⟩ none ∧
    (readDb demoLib demoPath false noWriteWorld).1.vault = none := by
  refine ⟨by decide, rfl, by decide, by decide, rfl, by decide⟩

/-- C9, the claim as stated fails. Standard input is not a terminal and the
piped stream is empty: `readDb` shows the password prompt and calls
`term.ReadPassword`, so the trace of the call holds a prompt and a terminal
read. The read delivers nothing and the call ends in `errWrongPassword`. -/
theorem readDb_piped_empty_prompts :
    (pipedWorld githubFile []).stdinTerminal = false ∧
    (pipedWorld githubFile []).stdin = [] ∧
    (pipedWorld githubFile []).trace = [] ∧
    (readDb demoLib demoPath true (pipedWorld githubFile [])).1.trace
      = [.readStdin, .enterPassword, .termRead, .newline] ∧
    Event.enterPassword ∈ (readDb demoLib demoPath true (pipedWorld githubFile [])).1.trace ∧
    Event.termRead ∈ (readDb demoLib demoPath true (pipedWorld githubFile [])).1.trace ∧
    (readDb demoLib demoPath true (pipedWorld githubFile [])).2
      = .ret dbase.zero (some .errWrongPassword) := by
  refine ⟨rfl, rfl, rfl, by decide, by decide, by decide, rfl⟩

/-! ## The theorems at concrete inputs -/

theorem demoLib_sealOverhead : demoLib.SealOverhead := by
  intro a nonce p
  simp [demoLib, demoTag]

theorem demoLib_openInvertsSeal : demoLib.OpenInvertsSeal := by
  intro a nonce p
  have hlen : (p ++ demoTag a nonce).length - 16 = p.length := by
    simp [demoTag]
  simp only [demoLib, hlen, List.drop_left, List.take_left]
  simp [demoTag]

theorem demoLib_decode_github (b : Bytes)
    (h : demoLib.gobEncode githubDb.Entries = some b) :
    demoLib.gobDecode b = some githubDb.Entries := by
  have he : demoLib.gobEncode githubDb.Entries = some [1] := by decide
  rw [he] at h
  cases h
  decide

/-- The concrete scenario of the specification: `githubDb` saved with the
password `correcthorse` and read back with `correcthorse` typed. -/
theorem saveDb_readDb_round_trip_witness :
    (saveDb demoLib freshWorld githubDb).2 = none ∧
    (terminalWorld githubFile [pwCorrect]).vault = (saveDb demoLib freshWorld githubDb).1.vault ∧
    readDb demoLib demoPath false (terminalWorld githubFile [pwCorrect])
      = ((acquirePwd (printDatafile demoPath false (terminalWorld githubFile [pwCorrect]))).2,
          .ret ⟨githubDb.Pwd, githubDb.Entries, none⟩ none) :=
  ⟨by decide, by decide,
    saveDb_readDb_round_trip demoLib freshWorld githubDb demoPath false
      (terminalWorld githubFile [pwCorrect]) (by decide) demoLib_openInvertsSeal
      demoLib_sealOverhead demoLib_decode_github (by decide) rfl (by decide)⟩

/-- The concrete scenario of the specification: the datafile of `githubDb` read
with `wrong` typed. -/
theorem readDb_wrong_password_witness :
    readDb demoLib demoPath false (terminalWorld githubFile [pwWrong])
      = ((acquirePwd (printDatafile demoPath false (terminalWorld githubFile [pwWrong]))).2,
          .ret dbase.zero (some .errWrongPassword)) :=
  readDb_wrong_password demoLib demoPath false (terminalWorld githubFile [pwWrong]) githubFile
    rfl rfl (by decide)
    (Or.inr (Or.inr ⟨List.replicate 32 (pwWrong.sum + (githubFile.take 12).sum),
      List.replicate 32 (pwWrong.sum + (githubFile.take 12).sum), by decide, rfl, by decide⟩))

/-- A datafile whose plaintext has the old schema ends in the exit with
status 1. -/
theorem readDb_two_stage_decode_witness :
    readDb demoLib demoPath false (terminalWorld legacyFile [pwCorrect])
      = ((acquirePwd (printDatafile demoPath false
            (terminalWorld legacyFile [pwCorrect]))).2.emit .legacyNotice, .exit 1) :=
  (readDb_two_stage_decode demoLib demoPath false (terminalWorld legacyFile [pwCorrect])
    legacyFile (List.replicate 32 97) (List.replicate 32 97) [2]
    rfl rfl (by decide) (by decide) rfl (by decide)).2.1 (by decide) (by decide)

/-- A datafile of 12 bytes ends in the error of line 88. -/
theorem readDb_insufficient_iff_witness :
    (readDb demoLib demoPath true
      (terminalWorld [1, 2, 3, 4, 5, 6, 7, 8, 9, 10, 11, 12] [pwCorrect])).2.isInsufficientData
        = true :=
  (readDb_insufficient_iff demoLib demoPath true
    (terminalWorld [1, 2, 3, 4, 5, 6, 7, 8, 9, 10, 11, 12] [pwCorrect])
    [1, 2, 3, 4, 5, 6, 7, 8, 9, 10, 11, 12] rfl rfl).1.2 (by decide)

/-- The file of `githubDb`: the nonce drawn from the random source, then the
sealed encoding. -/
theorem saveDb_file_layout_witness :
    ∃ file, (saveDb demoLib freshWorld githubDb).1.vault = some file ∧
      file.take 12 = freshWorld.rand.take nonceSize ∧ 13 ≤ file.length := by
  obtain ⟨_, _, _, file, _, _, _, _, _, _, hv, ht, _, _, _, hl, _⟩ :=
    saveDb_file_layout demoLib freshWorld githubDb (by decide) demoLib_sealOverhead
  exact ⟨file, hv, ht, hl⟩

/-- The password `correcthorse` piped in: the key is derived from the stream,
no prompt is shown and the terminal is not read. -/
theorem readDb_piped_password_witness :
    (pipedWorld githubFile pwCorrect).stdinTerminal = false ∧
    readDb demoLib demoPath true (pipedWorld githubFile pwCorrect)
      = decryptDb demoLib
          { pipedWorld githubFile pwCorrect with
            input := .piped []
            trace := (pipedWorld githubFile pwCorrect).trace ++ (if true then [] else
                [.datafile demoPath])
              ++ [.readStdin]
              ++ (if (pipedWorld githubFile pwCorrect).stdin = [] then
                [.enterPassword, .termRead, .newline] else []) }
          (pipedWorld githubFile pwCorrect).stdin (githubFile.take nonceSize)
          (githubFile.drop nonceSize) ∧
    (readDb demoLib demoPath true (pipedWorld githubFile pwCorrect)).1.trace = [.readStdin] ∧
    (readDb demoLib demoPath true (pipedWorld githubFile pwCorrect)).2 = .ret githubDb none :=
  ⟨rfl,
    (readDb_piped_password demoLib demoPath true (pipedWorld githubFile pwCorrect)
      githubFile rfl rfl (by decide) rfl).1,
    by decide, rfl⟩

/-- Three failed attempts: `initPassword` returns `errWrongPassword` and leaves
the database as it was. -/
theorem initPassword_protocol_witness :
    (initPassword demoPath exhaustedWorld dbase.zero).2.2 = some .errWrongPassword ∧
    (initPassword demoPath exhaustedWorld dbase.zero).2.1 = dbase.zero :=
  (initPassword_protocol demoPath exhaustedWorld dbase.zero).2.2.2.2.2 (by decide)

end TwoFat
